import Mathlib

/-!
# A shallow embedding of the Wisp interpreter (src/wisp.cpp)

This file models the tagged `Value` type, the `Environment`, the
recursive-descent parser and the tree-walking evaluator of the Wisp
microlisp, and proves the properties claimed about them.

Modelling conventions, used throughout:

* C++ `double` payloads are modelled by `Rat`.  Every numeric value that any
  theorem below touches is exactly representable in `double`, so rational
  arithmetic agrees with the C++ semantics there.  The one place where
  floating-point *rounding* is observable in a claim is the conversion
  `float(stack_data.i)` inside `Value::cast_to_float`, which goes through
  IEEE-754 *single* precision; that rounding is modelled explicitly by
  `floatOfInt` below.
* C++ `int` is modelled by `Int`.  No claim below exercises signed overflow;
  where a signed/unsigned conversion is observable (`builtin::index`) it is
  modelled explicitly (`sizeTof`).
* C++ exceptions (`throw Error(...)`) are modelled by `Except Err`.  The C++
  `Error` also carries the offending value and an environment snapshot; the
  claims only ever mention the message kind, so only the kind is modelled.
* Unbounded loops and recursion are given explicit fuel (`Nat`); running out
  of fuel yields the artificial `Err.outOfFuel`, which no real execution with
  adequate fuel produces.
-/

set_option maxRecDepth 10000

namespace Wisp

/-- Identifiers for the host `Builtin` function pointers of `namespace
builtin` in the source.  Two builtin `Value`s are `==` iff their pointers
are equal, i.e. iff their `BuiltinId`s are equal. -/
inductive BuiltinId where
  | evalFn | typeFn | parseFn
  | doBlock | ifThenElse | forLoop | whileLoop | scope | quoteFn | defun
  | defineFn | lambdaFn
  | eq | neq | greater | less | greaterEq | lessEq
  | sum | subtract | product | divide | remainderFn
  | listFn | insert | indexFn | removeFn | len | push | pop | headFn | tailFn
  | range
  | mapList | filterList | reduceList
  | exitFn | printFn | inputFn | randomFn | includeFn | readFile | writeFile
  | debugFn | replaceFn | displayFn
  | castToInt | castToFloat
  deriving DecidableEq, Repr

/-- The message kinds of the source's error taxonomy (the `#define`d
strings), plus two modelling artifacts: `outOfFuel` (the fuel ran out; real
executions with adequate fuel never produce it) and `unmodelledEffect`
(the builtin performs host I/O or is otherwise outside the pure model). -/
inductive Err where
  | tooFewArgs | tooManyArgs | invalidArgument | mismatchedTypes
  | callNonFunction | invalidLambda | invalidBinOp | invalidOrder
  | badCast | atomNotDefined | evalEmptyList | internalError
  | indexOutOfRange | malformedProgram
  | outOfFuel | unmodelledEffect
  deriving DecidableEq, Repr

/-- The nine-variant tagged union `Value`.

The C++ class stores a lambda's parameter list and body in `list[0]`/`list[1]`
and its captured `Environment` (which has no parent until application time) in
`lambda_scope`; here they are the three fields of `lambdaV`, with the captured
scope as its bare definition map.  A quote stores its payload in `list[0]`;
here it is the field of `quoted`.  A builtin stores its display name in `str`
and its function pointer in the union; here `builtin name b`. -/
inductive Value where
  | unit
  | int (i : Int)
  | float (f : Rat)
  | str (s : String)
  | atom (s : String)
  | quoted (v : Value)
  | listV (l : List Value)
  | lambdaV (params : List Value) (body : Value) (captured : List (String × Value))
  | builtin (name : String) (b : BuiltinId)

/-- The definition map of one scope: `std::map<std::string, Value>`.
`Environment::set` is map assignment; with the first-match `frameLookup`
below, consing a fresh pair is observationally the same as overwriting. -/
abbrev Frame := List (String × Value)

/-- An `Environment`: the local definitions followed by the definitions of
the chain of parent scopes.  The C++ class holds a non-owning pointer to its
parent; since no operation ever writes through that pointer (`set`,
`combine` and the parameter binding in `apply` all touch only the local
map), the parent chain is faithfully modelled as a snapshot list of frames,
local scope first. -/
structure Env where
  frames : List Frame

/-- A default-constructed `Environment`: no definitions, null parent. -/
def Env.empty : Env := ⟨[[]]⟩

/-- `std::map::find` on one scope's definitions. -/
def frameLookup : Frame → String → Option Value
  | [], _ => none
  | (k, v) :: rest, name => if k = name then some v else frameLookup rest name

/-- Map assignment `defs[name] = value` (overwrite-or-insert; modelled as a
cons, which `frameLookup` resolves identically). -/
def frameSet (f : Frame) (name : String) (v : Value) : Frame :=
  (name, v) :: f

/-- `Environment::set`: assign into the local definitions. -/
def Env.set (env : Env) (name : String) (v : Value) : Env :=
  match env.frames with
  | [] => ⟨[[(name, v)]]⟩
  | f :: rest => ⟨frameSet f name v :: rest⟩

/-- The recursion of `Environment::has`: local `find`, else parent. -/
def hasIn : List Frame → String → Bool
  | [], _ => false
  | f :: rest, name => (frameLookup f name).isSome || hasIn rest name

/-- `Environment::has`: is the name defined locally or in an ancestor?
(Reserved builtin names are deliberately *not* consulted.) -/
def Env.has (env : Env) (name : String) : Bool := hasIn env.frames name

/-- `Value.is_builtin`. -/
def Value.is_builtin : Value → Bool
  | .builtin _ _ => true
  | _ => false

/-- `Value.is_number`. -/
def Value.is_number : Value → Bool
  | .int _ => true
  | .float _ => true
  | _ => false

/-- Fueled binary logarithm (⌊log₂ n⌋ for n ≥ 1), used by `floatOfIntAux`.
`Nat.log2` itself is defined by well-founded recursion, which the kernel
cannot evaluate; this structural version (fuel `n` always suffices) can be
evaluated by `decide`/`rfl`. -/
def log2F : Nat → Nat → Nat
  | 0, _ => 0
  | f + 1, n => if n ≤ 1 then 0 else log2F f (n / 2) + 1

/-- IEEE-754 round-to-nearest, ties-to-even, of a natural number to single
precision (24 significand bits): the effect of the C++ conversion
`float(i)` for `0 ≤ i < 2^31`.  Values up to 2^24 are exact; above, the
value is rounded to the nearest multiple of the unit in the last place. -/
def floatOfIntAux (n : Nat) : Nat :=
  if n ≤ 2 ^ 24 then n
  else
    let k := log2F n n - 23
    let q := n / 2 ^ k
    let r := n % 2 ^ k
    if 2 * r < 2 ^ k then q * 2 ^ k
    else if 2 * r > 2 ^ k then (q + 1) * 2 ^ k
    else (if q % 2 = 0 then q else q + 1) * 2 ^ k

/-- The C++ conversion `float(stack_data.i)` (int → IEEE single), as an
exact integer result (every `float` obtained from an `int` is an integer). -/
def floatOfInt (i : Int) : Int :=
  if 0 ≤ i then (floatOfIntAux i.toNat : Int) else -(floatOfIntAux (-i).toNat : Int)

/-- `Value::cast_to_float`, returning the rational payload of the resulting
Float value.  Note the source casts an Int through *single* precision:
`Value(float(stack_data.i))`. -/
def castFloatQ : Value → Except Err Rat
  | .float f => .ok f
  | .int i => .ok ((floatOfInt i : Int) : Rat)
  | _ => .error .badCast

/-- Truncation toward zero of a rational: the C++ conversion `int(double)`. -/
def ratTruncZ (q : Rat) : Int :=
  if 0 ≤ q then ⌊q⌋ else -⌊-q⌋

/-- `Value::as_int` = `cast_to_int().stack_data.i`:  identity on Int,
truncation on Float, `BAD_CAST` otherwise. -/
def asIntZ : Value → Except Err Int
  | .int i => .ok i
  | .float f => .ok (ratTruncZ f)
  | _ => .error .badCast

/-- `Value::as_list`. -/
def asListV : Value → Except Err (List Value)
  | .listV l => .ok l
  | _ => .error .badCast

/-- `Value::as_string`. -/
def asStrV : Value → Except Err String
  | .str s => .ok s
  | _ => .error .badCast

mutual
/-- `Value::operator==`.  Int/Float promotion happens first (note it goes
through `cast_to_float`, i.e. single precision); mismatched tags are
unequal; builtins compare by function pointer (their names are *not*
compared, so aliases like `quit`/`exit` are equal); lambdas compare their
`list` member, i.e. parameters and body but not the captured scope; the
default case (Unit = Unit) is true. -/
def valueEq : Value → Value → Bool
  | .float f, .int i => f = ((floatOfInt i : Int) : Rat)
  | .int i, .float f => (((floatOfInt i : Int) : Rat)) = f
  | .float a, .float b => a = b
  | .int a, .int b => a = b
  | .builtin _ b1, .builtin _ b2 => b1 = b2
  | .str a, .str b => a = b
  | .atom a, .atom b => a = b
  | .quoted a, .quoted b => valueEq a b
  | .listV a, .listV b => valueListEq a b
  | .lambdaV p1 b1 _, .lambdaV p2 b2 _ => valueListEq p1 p2 && valueEq b1 b2
  | .unit, .unit => true
  | _, _ => false

/-- `std::vector<Value>::operator==`: sizes equal and elements equal. -/
def valueListEq : List Value → List Value → Bool
  | [], [] => true
  | a :: as, b :: bs => valueEq a b && valueListEq as bs
  | _, _ => false
end

/-- `Value::as_bool`: truthy iff not `==` to the integer 0. -/
def asBool (v : Value) : Bool := !(valueEq v (.int 0))

/-- `Value::operator+`.  The right operand Unit absorbs first; then the
guard rejects a number mixed with a non-number; then the switch on the left
tag: Float/Int addition with promotion (through single precision, see
`castFloatQ`), String and List concatenation, left Unit absorbs, everything
else is `INVALID_BIN_OP`.  (The two `_ => .error .internalError` arms are
unreachable: the guard has already excluded a number on exactly one side.) -/
def valueAdd (a b : Value) : Except Err Value :=
  match b with
  | .unit => .ok .unit
  | _ =>
    if (a.is_number || b.is_number) && !(a.is_number && b.is_number) then
      .error .invalidBinOp
    else
      match a with
      | .float f => do
        let g ← castFloatQ b
        .ok (.float (f + g))
      | .int i =>
        match b with
        | .float g => .ok (.float (((floatOfInt i : Int) : Rat) + g))
        | .int j => .ok (.int (i + j))
        | _ => .error .internalError
      | .str s =>
        match b with
        | .str t => .ok (.str (s ++ t))
        | _ => .error .invalidBinOp
      | .listV l =>
        match b with
        | .listV m => .ok (.listV (l ++ m))
        | _ => .error .invalidBinOp
      | .unit => .ok .unit
      | _ => .error .invalidBinOp

/-- `Value::operator-`: right Unit absorbs; non-numeric right operand is
`INVALID_BIN_OP`; then Float/Int with promotion, left Unit absorbs, others
`INVALID_BIN_OP`. -/
def valueSub (a b : Value) : Except Err Value :=
  match b with
  | .unit => .ok .unit
  | _ =>
    if !b.is_number then .error .invalidBinOp
    else
      match a with
      | .float f => do
        let g ← castFloatQ b
        .ok (.float (f - g))
      | .int i =>
        match b with
        | .float g => .ok (.float (((floatOfInt i : Int) : Rat) - g))
        | .int j => .ok (.int (i - j))
        | _ => .error .internalError
      | .unit => .ok .unit
      | _ => .error .invalidBinOp

/-- `Value::operator*` (same shape as `operator-`). -/
def valueMul (a b : Value) : Except Err Value :=
  match b with
  | .unit => .ok .unit
  | _ =>
    if !b.is_number then .error .invalidBinOp
    else
      match a with
      | .float f => do
        let g ← castFloatQ b
        .ok (.float (f * g))
      | .int i =>
        match b with
        | .float g => .ok (.float (((floatOfInt i : Int) : Rat) * g))
        | .int j => .ok (.int (i * j))
        | _ => .error .internalError
      | .unit => .ok .unit
      | _ => .error .invalidBinOp

/-- `Value::operator/` (same shape; integer division truncates toward zero;
division by zero is undefined behaviour in the source and yields Lean's
default 0 here — no claim touches it). -/
def valueDiv (a b : Value) : Except Err Value :=
  match b with
  | .unit => .ok .unit
  | _ =>
    if !b.is_number then .error .invalidBinOp
    else
      match a with
      | .float f => do
        let g ← castFloatQ b
        .ok (.float (f / g))
      | .int i =>
        match b with
        | .float g => .ok (.float (((floatOfInt i : Int) : Rat) / g))
        | .int j => .ok (.int (Int.tdiv i j))
        | _ => .error .internalError
      | .unit => .ok .unit
      | _ => .error .invalidBinOp

/-- `fmod` on the rational model: `f - g * trunc(f / g)`. -/
def qfmod (f g : Rat) : Rat := f - g * (ratTruncZ (f / g) : Rat)

/-- `Value::operator%` (with `HAS_LIBM`): right Unit absorbs; non-numeric
right is `INVALID_BIN_OP`; Float uses `fmod` with promotion; Int%Int is C++
truncated remainder; left Unit absorbs. -/
def valueMod (a b : Value) : Except Err Value :=
  match b with
  | .unit => .ok .unit
  | _ =>
    if !b.is_number then .error .invalidBinOp
    else
      match a with
      | .float f => do
        let g ← castFloatQ b
        .ok (.float (qfmod f g))
      | .int i =>
        match b with
        | .float g => .ok (.float (qfmod (((floatOfInt i : Int) : Rat)) g))
        | .int j => .ok (.int (Int.tmod i j))
        | _ => .error .internalError
      | .unit => .ok .unit
      | _ => .error .invalidBinOp

/-- `Value::operator<`: the right operand must be numeric
(`INVALID_BIN_OP`); Float compares after promoting the right; Int promotes
itself (through single precision) when the right is Float; a non-numeric
left operand is `INVALID_ORDER`. -/
def valueLt (a b : Value) : Except Err Bool :=
  if !b.is_number then .error .invalidBinOp
  else
    match a with
    | .float f => do
      let g ← castFloatQ b
      .ok (decide (f < g))
    | .int i =>
      match b with
      | .float g => .ok (decide ((((floatOfInt i : Int)) : Rat) < g))
      | .int j => .ok (decide (i < j))
      | _ => .error .internalError
    | _ => .error .invalidOrder

/-- `Value::operator<=`: `(a == b) || (a < b)`, with C++ short-circuiting:
when `==` holds, `<` is never evaluated (so it cannot throw). -/
def valueLe (a b : Value) : Except Err Bool :=
  if valueEq a b then .ok true else valueLt a b

/-- `Value::operator>=` = `!(a < b)`. -/
def valueGe (a b : Value) : Except Err Bool := (valueLt a b).map (! ·)

/-- `Value::operator>` = `!(a <= b)`. -/
def valueGt (a b : Value) : Except Err Bool := (valueLe a b).map (! ·)

/-- `Value::get_type_name` (lambdas and builtins are both "function";
the `INTERNAL_ERROR` arm of the switch is unreachable). -/
def getTypeName : Value → String
  | .quoted _ => "quote"
  | .atom _ => "atom"
  | .int _ => "int"
  | .float _ => "float"
  | .listV _ => "list"
  | .str _ => "string"
  | .builtin _ _ => "function"
  | .lambdaV _ _ _ => "function"
  | .unit => "unit"

mutual
/-- `Value::get_used_atoms`: the atom names occurring in an expression,
recursively through quotes, lambda bodies and list elements (in order, with
duplicates). -/
def get_used_atoms : Value → List String
  | .quoted v => get_used_atoms v
  | .atom s => [s]
  | .lambdaV _ body _ => get_used_atoms body
  | .listV l => getUsedAtomsList l
  | _ => []

/-- The loop of the `LIST` case of `get_used_atoms`. -/
def getUsedAtomsList : List Value → List String
  | [] => []
  | v :: rest => get_used_atoms v ++ getUsedAtomsList rest
end

/-- The `STRING` case of `Value::debug`: embedded double quotes become
`\"`; everything else (including backslashes) is copied verbatim. -/
def escQuotes : List Char → List Char
  | [] => []
  | '"' :: rest => '\\' :: '"' :: escQuotes rest
  | c :: rest => c :: escQuotes rest

/-- Rendering of a `double` by `std::ostringstream`.  The stream's default
6-significant-digit formatting is abstracted here (no claim observes the
text of a Float). -/
def floatRepr (q : Rat) : String := toString q

mutual
/-- `Value::debug`.  A builtin renders as `<name at ADDRESS>`; the pointer
address is elided (no claim observes it).  Lambdas and lists render their
elements' debug forms separated by single spaces. -/
def debugV : Value → String
  | .quoted v => "'" ++ debugV v
  | .atom s => s
  | .int i => toString i
  | .float q => floatRepr q
  | .str s => "\"" ++ String.mk (escQuotes s.toList) ++ "\""
  | .lambdaV ps body _ =>
      "(lambda " ++ ("(" ++ debugJoin ps ++ ")") ++ " " ++ debugV body ++ ")"
  | .listV l => "(" ++ debugJoin l ++ ")"
  | .builtin name _ => "<" ++ name ++ " at >"
  | .unit => "@"

/-- The element loop shared by the `LAMBDA` and `LIST` cases of
`Value::debug` (space-separated debug forms). -/
def debugJoin : List Value → String
  | [] => ""
  | [v] => debugV v
  | v :: rest => debugV v ++ " " ++ debugJoin rest
end

/-- `Value::display`: identical to `debug` except that a String renders as
its raw contents (nested values inside lists still use `debug`). -/
def displayV : Value → String
  | .str s => s
  | v => debugV v

/-- The hard-coded reserved-name table at the top of `Environment::get`:
the chain of `if (name == "...") return Value("...", builtin::...);`
comparisons, in source order, ending with the constant `endl`.  `get`
consults this table *before* any user definition. -/
def reservedLookup (name : String) : Option Value :=
  -- Meta operations
  if name = "eval" then some (.builtin "eval" .evalFn)
  else if name = "type" then some (.builtin "type" .typeFn)
  else if name = "parse" then some (.builtin "parse" .parseFn)
  -- Special forms
  else if name = "do" then some (.builtin "do" .doBlock)
  else if name = "if" then some (.builtin "if" .ifThenElse)
  else if name = "for" then some (.builtin "for" .forLoop)
  else if name = "while" then some (.builtin "while" .whileLoop)
  else if name = "scope" then some (.builtin "scope" .scope)
  else if name = "quote" then some (.builtin "quote" .quoteFn)
  else if name = "defun" then some (.builtin "defun" .defun)
  else if name = "define" then some (.builtin "define" .defineFn)
  else if name = "lambda" then some (.builtin "lambda" .lambdaFn)
  -- Comparison operations
  else if name = "=" then some (.builtin "=" .eq)
  else if name = "!=" then some (.builtin "!=" .neq)
  else if name = ">" then some (.builtin ">" .greater)
  else if name = "<" then some (.builtin "<" .less)
  else if name = ">=" then some (.builtin ">=" .greaterEq)
  else if name = "<=" then some (.builtin "<=" .lessEq)
  -- Arithmetic operations
  else if name = "+" then some (.builtin "+" .sum)
  else if name = "-" then some (.builtin "-" .subtract)
  else if name = "*" then some (.builtin "*" .product)
  else if name = "/" then some (.builtin "/" .divide)
  else if name = "%" then some (.builtin "%" .remainderFn)
  -- List operations
  else if name = "list" then some (.builtin "list" .listFn)
  else if name = "insert" then some (.builtin "insert" .insert)
  else if name = "index" then some (.builtin "index" .indexFn)
  else if name = "remove" then some (.builtin "remove" .removeFn)
  else if name = "len" then some (.builtin "len" .len)
  else if name = "push" then some (.builtin "push" .push)
  else if name = "pop" then some (.builtin "pop" .pop)
  else if name = "head" then some (.builtin "head" .headFn)
  else if name = "tail" then some (.builtin "tail" .tailFn)
  else if name = "first" then some (.builtin "first" .headFn)
  else if name = "last" then some (.builtin "last" .pop)
  else if name = "range" then some (.builtin "range" .range)
  -- Functional operations
  else if name = "map" then some (.builtin "map" .mapList)
  else if name = "filter" then some (.builtin "filter" .filterList)
  else if name = "reduce" then some (.builtin "reduce" .reduceList)
  -- IO operations (USE_STD)
  else if name = "exit" then some (.builtin "exit" .exitFn)
  else if name = "quit" then some (.builtin "quit" .exitFn)
  else if name = "print" then some (.builtin "print" .printFn)
  else if name = "input" then some (.builtin "input" .inputFn)
  else if name = "random" then some (.builtin "random" .randomFn)
  else if name = "include" then some (.builtin "include" .includeFn)
  else if name = "read-file" then some (.builtin "read-file" .readFile)
  else if name = "write-file" then some (.builtin "write-file" .writeFile)
  -- String operations
  else if name = "debug" then some (.builtin "debug" .debugFn)
  else if name = "replace" then some (.builtin "replace" .replaceFn)
  else if name = "display" then some (.builtin "display" .displayFn)
  -- Casting operations
  else if name = "int" then some (.builtin "int" .castToInt)
  else if name = "float" then some (.builtin "float" .castToFloat)
  -- Constants
  else if name = "endl" then some (.str "\n")
  else none

/-- The user-definition part of `Environment::get`: local `find`, then the
parent chain.  (The source looks in the parent's map and then calls the
parent's `get`, which re-checks the reserved table with the same negative
answer; that recursion is flattened to a walk over the frame chain.) -/
def lookupFrames : List Frame → String → Option Value
  | [], _ => none
  | f :: rest, name =>
    match frameLookup f name with
    | some v => some v
    | none => lookupFrames rest name

/-- `Environment::get`: the reserved table first (so builtin names are not
shadowable), then local definitions, then the parent chain, else
`ATOM_NOT_DEFINED`. -/
def Env.get (env : Env) (name : String) : Except Err Value :=
  match reservedLookup name with
  | some v => .ok v
  | none =>
    match lookupFrames env.frames name with
    | some v => .ok v
    | none => .error .atomNotDefined

/-- The capture loop of the Lambda constructor: for each atom used by the
body (in order), if the creation environment `has` it, copy its current
value into the lambda's own scope.  (`has` is true only for user
definitions, but `get` still resolves reserved names first, so a
user-shadowed builtin name is captured as the builtin.)  The `.error` arm
is unreachable: `has` implies `get` succeeds. -/
def captureScope (env : Env) : List String → Frame → Frame
  | [], acc => acc
  | a :: rest, acc =>
    if env.has a then
      match env.get a with
      | .ok v => captureScope env rest (frameSet acc a v)
      | .error _ => captureScope env rest acc
    else captureScope env rest acc

/-- The Lambda constructor `Value(params, ret, env)`: store the parameters
and the body, and capture the used atoms from the creation environment. -/
def mkLambda (params : List Value) (body : Value) (env : Env) : Value :=
  .lambdaV params body (captureScope env (get_used_atoms body) [])

/-! ## Parser

The source parser works on a mutable `std::string` and an `int` cursor.
Here the string is a `List Char` and the cursor a `Nat` (it never goes
negative).  Reading `s[ptr]` at `ptr = s.length` yields `'\0'` in C++
(`std::string` guarantees a null terminator); `charAt` models that; the
parser never reads beyond `s.length`. -/

/-- `s[ptr]`, with the C++ null terminator at the end. -/
def charAt (s : List Char) (i : Nat) : Char := s.getD i (Char.ofNat 0)

/-- `isspace` in the default C locale (ASCII). -/
def isSpaceC (c : Char) : Bool :=
  c = ' ' || c = '\t' || c = '\n' || c = '\x0b' || c = '\x0c' || c = '\r'

/-- `isdigit` (ASCII). -/
def isDigitC (c : Char) : Bool := '0' ≤ c && c ≤ '9'

/-- `isalpha` in the default C locale (ASCII letters). -/
def isAlphaC (c : Char) : Bool :=
  ('a' ≤ c && c ≤ 'z') || ('A' ≤ c && c ≤ 'Z')

/-- `ispunct` in the default C locale (the ASCII punctuation ranges). -/
def isPunctC (c : Char) : Bool :=
  (33 ≤ c.toNat && c.toNat ≤ 47) || (58 ≤ c.toNat && c.toNat ≤ 64) ||
  (91 ≤ c.toNat && c.toNat ≤ 96) || (123 ≤ c.toNat && c.toNat ≤ 126)

/-- `is_symbol`: alphabetic or punctuation, and none of `(`, `)`, `"`, `'`.
(Characters outside ASCII have locale-dependent classification in C;
programs in the claims are ASCII.) -/
def is_symbol (ch : Char) : Bool :=
  (isAlphaC ch || isPunctC ch) && ch ≠ '(' && ch ≠ ')' && ch ≠ '"' && ch ≠ '\''

/-- `skip_whitespace`: advance the cursor past each whitespace character.
The C++ loop `while (isspace(s[ptr])) ptr++;` stops at the first
non-whitespace character (or at the terminator), i.e. it advances by the
length of the whitespace prefix of the remaining input. -/
def skipWs (s : List Char) (ptr : Nat) : Nat :=
  ptr + ((s.drop ptr).takeWhile isSpaceC).length

/-- The comment scan `while (s[save_ptr] != '\n' && save_ptr < len)
save_ptr++;`: it stops at the first `'\n'` at or after `ptr`, or at the end
of the string, i.e. it advances by the length of the newline-free prefix of
the remaining input. -/
def findEol (s : List Char) (ptr : Nat) : Nat :=
  ptr + ((s.drop ptr).takeWhile (fun ch => ch ≠ '\n')).length

/-- The numeric-lexeme scan `while (isdigit(s[ptr]) || s[ptr] == '.')
ptr++;`. -/
def scanNum (s : List Char) (ptr : Nat) : Nat :=
  ptr + ((s.drop ptr).takeWhile (fun ch => isDigitC ch || ch = '.')).length

/-- The atom scan `while (is_symbol(s[ptr + n])) n++;` (returns the final
cursor `ptr + n`). -/
def scanSym (s : List Char) (ptr : Nat) : Nat :=
  ptr + ((s.drop ptr).takeWhile is_symbol).length

/-- `s.erase(ptr, count)`. -/
def eraseRange (s : List Char) (ptr count : Nat) : List Char :=
  s.take ptr ++ s.drop (ptr + count)

/-- Decimal digit accumulation, as `atoi`/`atof` do it. -/
def digitsToNat : List Char → Nat → Nat
  | [], acc => acc
  | c :: rest, acc => digitsToNat rest (acc * 10 + (c.toNat - 48))

/-- `atoi` on a numeric lexeme: the lexeme always starts with a digit here,
and `atoi` stops at the first non-digit (the source's `substr(save_ptr,
ptr)` can drag trailing characters into the lexeme; `atoi` ignores them). -/
def atoiZ (l : List Char) : Int := (digitsToNat (l.takeWhile isDigitC) 0 : Int)

/-- `atof` on a numeric lexeme: integer part, then an optional single `.`
and fractional part; anything after that is ignored.  (The decimal value is
exact here; `atof`'s rounding to double is not observable in any claim.) -/
def atofQ (l : List Char) : Rat :=
  let ip := l.takeWhile isDigitC
  let rest := l.drop ip.length
  let fp :=
    match rest with
    | '.' :: r => r.takeWhile isDigitC
    | _ => []
  (digitsToNat ip 0 : Rat) + (digitsToNat fp 0 : Rat) / ((10 : Rat) ^ fp.length)

/-- The string-literal scan: starting at `n = 1`, advance until the closing
`"` (an unterminated literal is `MALFORMED_PROGRAM`); a backslash skips the
following character.  Returns the final `n` (the closing quote's offset).
Fueled; `s.length + 2` is always enough. -/
def scanStr : Nat → List Char → Nat → Nat → Except Err Nat
  | 0, _, _, _ => .error .outOfFuel
  | fuel + 1, s, ptr, n =>
    if charAt s (ptr + n) = '"' then .ok n
    else if s.length ≤ ptr + n then .error .malformedProgram
    else if charAt s (ptr + n) = '\\' then scanStr fuel s ptr (n + 2)
    else scanStr fuel s ptr (n + 1)

/-- The escape-decoding loop over a scanned string literal: `\\`, `\"`,
`\n`, `\t` decode; any other character (including a lone backslash) is
copied. -/
def decodeEsc : List Char → List Char
  | '\\' :: '\\' :: rest => '\\' :: decodeEsc rest
  | '\\' :: '"' :: rest => '"' :: decodeEsc rest
  | '\\' :: 'n' :: rest => '\n' :: decodeEsc rest
  | '\\' :: 't' :: rest => '\t' :: decodeEsc rest
  | c :: rest => c :: decodeEsc rest
  | [] => []

mutual
/-- The single-expression parser `parse(std::string &s, int &ptr)`.
Returns the parsed value together with the (possibly comment-erased) string
and the advanced cursor.

The comment loop physically erases `[ptr, eol)` from the buffer, skips
whitespace, and — when at most one character of text remains after the
cursor (the `substr(ptr, s.length()-ptr-1)` check drops the last
character!) — returns a Unit value immediately. -/
def parseOne : Nat → List Char → Nat → Except Err (Value × List Char × Nat)
  | 0, _, _ => .error .outOfFuel
  | fuel + 1, s0, ptr0 =>
    let ptr := skipWs s0 ptr0
    if charAt s0 ptr = ';' then
      -- one iteration of the comment-erasing while loop
      let eol := findEol s0 ptr
      let s := eraseRange s0 ptr (eol - ptr)
      let ptr1 := skipWs s ptr
      if ((s.drop ptr1).take (s.length - ptr1 - 1)).isEmpty then
        .ok (.unit, s, ptr1)
      else
        parseOne fuel s ptr1
    else if s0.isEmpty then
      .ok (.unit, s0, ptr)
    else if charAt s0 ptr = '\'' then do
      let (v, s, ptr') ← parseOne fuel s0 (ptr + 1)
      .ok (.quoted v, s, ptr')
    else if charAt s0 ptr = '(' then do
      let (elems, s, ptrClose) ← parseListItems fuel s0 (skipWs s0 (ptr + 1)) []
      .ok (.listV elems, s, skipWs s (ptrClose + 1))
    else if isDigitC (charAt s0 ptr) ||
            (charAt s0 ptr = '-' && isDigitC (charAt s0 (ptr + 1))) then
      let negate := charAt s0 ptr = '-'
      let save := if negate then ptr + 1 else ptr
      let ptr2 := scanNum s0 save
      -- the source's `substr(save_ptr, ptr)` passes the *cursor* as the
      -- count, so the lexeme is `ptr2` characters long, not `ptr2 - save`
      let lexeme := (s0.drop save).take ptr2
      let sign : Int := if negate then -1 else 1
      if lexeme.contains '.' then
        .ok (.float ((sign : Rat) * atofQ lexeme), s0, skipWs s0 ptr2)
      else
        .ok (.int (sign * atoiZ lexeme), s0, skipWs s0 ptr2)
    else if charAt s0 ptr = '"' then do
      let n ← scanStr (s0.length + 2) s0 ptr 1
      let x := (s0.drop (ptr + 1)).take (n - 1)
      .ok (.str (String.mk (decodeEsc x)), s0, skipWs s0 (ptr + n + 1))
    else if charAt s0 ptr = '@' then
      .ok (.unit, s0, skipWs s0 (ptr + 1))
    else if is_symbol (charAt s0 ptr) then
      let e := scanSym s0 ptr
      .ok (.atom (String.mk ((s0.drop ptr).take (e - ptr))), s0, skipWs s0 e)
    else
      .error .malformedProgram

/-- The `while (s[ptr] != ')') result.push(parse(s, ptr));` loop of the
list case (the buffer may shrink inside when comments are erased). -/
def parseListItems :
    Nat → List Char → Nat → List Value → Except Err (List Value × List Char × Nat)
  | 0, _, _, _ => .error .outOfFuel
  | fuel + 1, s, ptr, acc =>
    if charAt s ptr = ')' then .ok (acc, s, ptr)
    else do
      let (v, s', ptr') ← parseOne fuel s ptr
      parseListItems fuel s' ptr' (acc ++ [v])
end

/-- The whole-program parser loop: parse expressions while the cursor keeps
moving and has not passed the last character.  `last_i` starts at `-1`,
modelled by `Option Nat`; the C++ guard `i <= int(s.length()-1)` (with its
size_t underflow for the empty string) is exactly `i < s.length`. -/
def parseAll :
    Nat → List Char → Nat → Option Nat → List Value →
    Except Err (List Value × List Char × Nat)
  | 0, _, _, _, _ => .error .outOfFuel
  | fuel + 1, s, i, lastI, acc =>
    if lastI ≠ some i ∧ i < s.length then do
      let (v, s', i') ← parseOne fuel s i
      parseAll fuel s' i' (some i) (acc ++ [v])
    else
      .ok (acc, s, i)

/-- `parse(std::string)` — parse an entire program into its list of
expressions; residual input after the loop is `MALFORMED_PROGRAM` (checked
against the final, comment-erased buffer). -/
def parseProgramL (fuel : Nat) (code : List Char) : Except Err (List Value) := do
  let (vs, s, i) ← parseAll fuel code 0 none []
  if i < s.length then .error .malformedProgram
  else .ok vs

/-! ## Builtin cores

Every builtin that is not a special form starts with `eval_args(args, env)`
and then works on the evaluated values without touching the environment
again.  That value-level remainder is factored out here as the builtin's
*core*; the dispatcher below runs `eval_args` first and then the core,
exactly as the source does. -/

/-- The arity error the source raises for a fixed-arity builtin:
`TOO_MANY_ARGS` when above, `TOO_FEW_ARGS` when below. -/
def arityErr (got want : Nat) : Err :=
  if got > want then .tooManyArgs else .tooFewArgs

/-- The accumulation loop of `builtin::sum` / `builtin::product`:
`acc = args[0]; for (i = 1; ...) acc = acc ⊕ args[i];`. -/
def foldAcc (op : Value → Value → Except Err Value) :
    Value → List Value → Except Err Value
  | acc, [] => .ok acc
  | acc, x :: rest => do
    let acc' ← op acc x
    foldAcc op acc' rest

/-- `builtin::sum` after `eval_args`: fewer than two arguments is
`TOO_FEW_ARGS`, else the left fold of `operator+`. -/
def sumCore (vs : List Value) : Except Err Value :=
  if vs.length < 2 then .error .tooFewArgs
  else
    match vs with
    | v :: rest => foldAcc valueAdd v rest
    | [] => .error .internalError

/-- `builtin::product` after `eval_args`: fewer than two arguments is
`TOO_FEW_ARGS`, else the left fold of `operator*`. -/
def productCore (vs : List Value) : Except Err Value :=
  if vs.length < 2 then .error .tooFewArgs
  else
    match vs with
    | v :: rest => foldAcc valueMul v rest
    | [] => .error .internalError

/-- `builtin::subtract` after `eval_args`. -/
def subtractCore : List Value → Except Err Value
  | [a, b] => valueSub a b
  | vs => .error (arityErr vs.length 2)

/-- `builtin::divide` after `eval_args`. -/
def divideCore : List Value → Except Err Value
  | [a, b] => valueDiv a b
  | vs => .error (arityErr vs.length 2)

/-- `builtin::remainder` after `eval_args`. -/
def remainderCore : List Value → Except Err Value
  | [a, b] => valueMod a b
  | vs => .error (arityErr vs.length 2)

/-- `builtin::eq` after `eval_args` (`int(args[0] == args[1])`). -/
def eqCore : List Value → Except Err Value
  | [a, b] => .ok (.int (if valueEq a b then 1 else 0))
  | vs => .error (arityErr vs.length 2)

/-- `builtin::neq` after `eval_args`. -/
def neqCore : List Value → Except Err Value
  | [a, b] => .ok (.int (if valueEq a b then 0 else 1))
  | vs => .error (arityErr vs.length 2)

/-- `builtin::less` after `eval_args`. -/
def lessCore : List Value → Except Err Value
  | [a, b] => do
    let r ← valueLt a b
    .ok (.int (if r then 1 else 0))
  | vs => .error (arityErr vs.length 2)

/-- `builtin::greater` after `eval_args`. -/
def greaterCore : List Value → Except Err Value
  | [a, b] => do
    let r ← valueGt a b
    .ok (.int (if r then 1 else 0))
  | vs => .error (arityErr vs.length 2)

/-- `builtin::less_eq` after `eval_args`. -/
def lessEqCore : List Value → Except Err Value
  | [a, b] => do
    let r ← valueLe a b
    .ok (.int (if r then 1 else 0))
  | vs => .error (arityErr vs.length 2)

/-- `builtin::greater_eq` after `eval_args`. -/
def greaterEqCore : List Value → Except Err Value
  | [a, b] => do
    let r ← valueGe a b
    .ok (.int (if r then 1 else 0))
  | vs => .error (arityErr vs.length 2)

/-- `builtin::get_type_name` after `eval_args`. -/
def typeCore : List Value → Except Err Value
  | [a] => .ok (.str (getTypeName a))
  | vs => .error (arityErr vs.length 1)

/-- `builtin::cast_to_float` after `eval_args`. -/
def castFloatCore : List Value → Except Err Value
  | [a] => (castFloatQ a).map Value.float
  | vs => .error (arityErr vs.length 1)

/-- `builtin::cast_to_int` after `eval_args`. -/
def castIntCore : List Value → Except Err Value
  | [a] => (asIntZ a).map Value.int
  | vs => .error (arityErr vs.length 1)

/-- The C++ conversion of a (32-bit) signed index to `size_t` performed by
the comparison `i >= list.size()` and by `vector::operator[]`: negative
indices wrap to huge unsigned values. -/
def sizeTof (i : Int) : Nat :=
  if 0 ≤ i then i.toNat else (2 ^ 64 + i).toNat

/-- `builtin::index` after `eval_args`: exactly two arguments; the first
must be a list and the second castable to int; an empty list, or an index
whose `size_t` conversion reaches the length, is `INDEX_OUT_OF_RANGE`;
otherwise the element at that (converted) position. -/
def indexCore : List Value → Except Err Value
  | [l, idx] => do
    let lst ← asListV l
    let i ← asIntZ idx
    if lst.isEmpty || lst.length ≤ sizeTof i then .error .indexOutOfRange
    else .ok (lst.getD (sizeTof i) .unit)
  | vs => .error (arityErr vs.length 2)

/-- `builtin::insert` after `eval_args` (the source compares `i >
list.size()` with the same signed/unsigned conversion; a surviving index is
necessarily in `[0, size]`). -/
def insertCore : List Value → Except Err Value
  | [l, idx, v] => do
    let lst ← asListV l
    let i ← asIntZ idx
    if lst.length < sizeTof i then .error .indexOutOfRange
    else .ok (.listV (lst.take (sizeTof i) ++ v :: lst.drop (sizeTof i)))
  | vs => .error (arityErr vs.length 3)

/-- `builtin::remove` after `eval_args`. -/
def removeCore : List Value → Except Err Value
  | [l, idx] => do
    let lst ← asListV l
    let i ← asIntZ idx
    if lst.isEmpty || lst.length ≤ sizeTof i then .error .indexOutOfRange
    else .ok (.listV (lst.take (sizeTof i) ++ lst.drop (sizeTof i + 1)))
  | vs => .error (arityErr vs.length 2)

/-- `builtin::len` after `eval_args`. -/
def lenCore : List Value → Except Err Value
  | [a] => do
    let lst ← asListV a
    .ok (.int (lst.length : Int))
  | vs => .error (arityErr vs.length 1)

/-- `builtin::push` after `eval_args`: `Value::push` throws
`MISMATCHED_TYPES` on a non-list; each further argument is appended to the
(copied) first. -/
def pushCore : List Value → Except Err Value
  | [] => .error .tooFewArgs
  | l :: rest =>
    match l with
    | .listV xs => .ok (.listV (xs ++ rest))
    | _ => .error .mismatchedTypes

/-- `builtin::pop` after `eval_args`: returns the *removed last element* of
the list copy.  Popping an empty list reads `list[size()-1]`, which is
undefined behaviour in the source (modelled as an internal error). -/
def popCore : List Value → Except Err Value
  | [a] =>
    match a with
    | .listV xs =>
      match xs.getLast? with
      | some v => .ok v
      | none => .error .internalError
    | _ => .error .mismatchedTypes
  | vs => .error (arityErr vs.length 1)

/-- `builtin::head` after `eval_args`. -/
def headCore : List Value → Except Err Value
  | [a] => do
    let lst ← asListV a
    match lst with
    | [] => .error .indexOutOfRange
    | v :: _ => .ok v
  | vs => .error (arityErr vs.length 1)

/-- `builtin::tail` after `eval_args` (copies elements from index 1 on). -/
def tailCore : List Value → Except Err Value
  | [a] => do
    let lst ← asListV a
    .ok (.listV (lst.drop 1))
  | vs => .error (arityErr vs.length 1)

/-- `builtin::debug` after `eval_args`. -/
def debugCore : List Value → Except Err Value
  | [a] => .ok (.str (debugV a))
  | vs => .error (arityErr vs.length 1)

/-- `builtin::display` after `eval_args`. -/
def displayCore : List Value → Except Err Value
  | [a] => .ok (.str (displayV a))
  | vs => .error (arityErr vs.length 1)

/-- `builtin::parse` after `eval_args`: one String argument (else
`INVALID_ARGUMENT` for a non-string, arity errors otherwise), parsed with
the whole-program parser and wrapped in a List value. -/
def parseCore (fuel : Nat) : List Value → Except Err Value
  | [a] =>
    if getTypeName a ≠ "string" then .error .invalidArgument
    else do
      let s ← asStrV a
      let vs ← parseProgramL fuel s.toList
      .ok (.listV vs)
  | vs => .error (arityErr vs.length 1)

/-- `std::string::find(sub, from)`: the least position `≥ from` at which
`sub` occurs (an empty `sub` occurs at every position up to the length). -/
def strFind (s sub : List Char) (i : Nat) : Option Nat :=
  if i ≤ s.length then
    if sub.isPrefixOf (s.drop i) then some i
    else if i = s.length then none
    else strFind s sub (i + 1)
  else none
termination_by s.length + 1 - i

/-- The loop of `replace_substring`: find, splice, continue after the
replacement.  Fueled (an empty pattern makes quadratic progress). -/
def replaceLoop : Nat → List Char → List Char → List Char → Nat → List Char
  | 0, s, _, _, _ => s
  | fuel + 1, s, sub, repl, i =>
    match strFind s sub i with
    | none => s
    | some j =>
      replaceLoop fuel (s.take j ++ repl ++ s.drop (j + sub.length)) sub repl
        (j + repl.length)

/-- `builtin::replace` after `eval_args`: three String arguments. -/
def replaceCore (fuel : Nat) : List Value → Except Err Value
  | [a, b, c] => do
    let src ← asStrV a
    let sub ← asStrV b
    let repl ← asStrV c
    .ok (.str (String.mk
      (replaceLoop fuel src.toList sub.toList repl.toList 0)))
  | vs => .error (arityErr vs.length 3)

/-- The `while (low < high) { result.push_back(low); low = low + 1; }` loop
of `builtin::range` (generic over Value arithmetic, as in the source). -/
def rangeLoop : Nat → Value → Value → Except Err (List Value)
  | 0, _, _ => .error .outOfFuel
  | fuel + 1, low, high => do
    let b ← valueLt low high
    if b then do
      let low' ← valueAdd low (.int 1)
      let rest ← rangeLoop fuel low' high
      .ok (low :: rest)
    else .ok []

/-- `builtin::range` after `eval_args`: both arguments must be int or
float (`MISMATCHED_TYPES`); `low >= high` short-circuits to the empty
list; otherwise the accumulation loop.  The source reads `args[0]` and
`args[1]` without an arity check — fewer than two arguments is undefined
behaviour (modelled as an internal error); extra arguments are ignored. -/
def rangeCore (fuel : Nat) : List Value → Except Err Value
  | a :: b :: _ => do
    if getTypeName a ≠ "int" && getTypeName a ≠ "float" then
      .error .mismatchedTypes
    else if getTypeName b ≠ "int" && getTypeName b ≠ "float" then
      .error .mismatchedTypes
    else do
      let ge ← valueGe a b
      if ge then .ok (.listV [])
      else do
        let l ← rangeLoop fuel a b
        .ok (.listV l)
  | _ => .error .internalError

/-- The parameter-binding loop of `Value::apply` for lambdas: each
parameter must be an Atom (`INVALID_LAMBDA` at the first that is not), and
its name is assigned the corresponding argument in the call scope.  Called
only with lists of equal length. -/
def bindParams : List Value → List Value → Frame → Except Err Frame
  | [], [], acc => .ok acc
  | .atom s :: ps, a :: args, acc => bindParams ps args (frameSet acc s a)
  | _ :: _, _ :: _, _ => .error .invalidLambda
  | _, _, _ => .error .internalError

/-- The frame produced by binding `names` to `args` on top of a captured
scope (the pure shape of `bindParams` on well-formed parameter lists). -/
def bindList (cap : Frame) : List String → List Value → Frame
  | n :: ns, a :: args => bindList (frameSet cap n a) ns args
  | _, _ => cap

/-! ## Evaluator

`Value::eval`, `Value::apply` and the builtin bodies are mutually
recursive; every function below spends one unit of fuel per call, so any
terminating execution is reproduced exactly by a large enough fuel. -/

mutual
/-- `Value::eval`: quotes strip one layer; atoms are looked up; an empty
list is `EVAL_EMPTY_LIST`; a non-empty list evaluates its head, passes the
arguments *unevaluated* when the head is a builtin (potential special
form) and evaluated otherwise, then applies; everything else
self-evaluates. -/
def evalV : Nat → Value → Env → Except Err (Value × Env)
  | 0, _, _ => .error .outOfFuel
  | fuel + 1, v, env =>
    match v with
    | .quoted q => .ok (q, env)
    | .atom s => do
      let r ← env.get s
      .ok (r, env)
    | .listV l =>
      match l with
      | [] => .error .evalEmptyList
      | f :: args => do
        let (fv, env1) ← evalV fuel f env
        if fv.is_builtin then
          applyV fuel fv args env1
        else do
          let (avs, env2) ← evalArgsN fuel args env1
          applyV fuel fv avs env2
    | _ => .ok (v, env)

/-- `Value::apply`: a Lambda checks the argument count (`TOO_MANY_ARGS` /
`TOO_FEW_ARGS`), takes its captured scope, sets the call-site environment
as its parent, binds the parameters (each must be an Atom), and evaluates
the body there; a Builtin invokes its function; anything else is
`CALL_NON_FUNCTION`.  Mutations made by the body stay in the call scope,
so the call-site environment is returned unchanged. -/
def applyV : Nat → Value → List Value → Env → Except Err (Value × Env)
  | 0, _, _, _ => .error .outOfFuel
  | fuel + 1, f, args, env =>
    match f with
    | .lambdaV params body cap =>
      if params.length ≠ args.length then
        .error (if args.length > params.length then Err.tooManyArgs else Err.tooFewArgs)
      else do
        let frame ← bindParams params args cap
        match evalV fuel body ⟨frame :: env.frames⟩ with
        | .ok (r, _) => .ok (r, env)
        | .error e => .error e
    | .builtin _ b => evalBuiltin fuel b args env
    | _ => .error .callNonFunction

/-- `builtin::eval_args`: evaluate each argument in order, threading the
environment. -/
def evalArgsN : Nat → List Value → Env → Except Err (List Value × Env)
  | _, [], env => .ok ([], env)
  | 0, _ :: _, _ => .error .outOfFuel
  | fuel + 1, a :: rest, env => do
    let (v, env1) ← evalV fuel a env
    let (vs, env2) ← evalArgsN fuel rest env1
    .ok (v :: vs, env2)

/-- The `Value acc; for (...) acc = args[i].eval(env);` loop shared by
`builtin::do_block` and `builtin::scope`. -/
def evalSeq : Nat → List Value → Value → Env → Except Err (Value × Env)
  | _, [], acc, env => .ok (acc, env)
  | 0, _ :: _, _, _ => .error .outOfFuel
  | fuel + 1, a :: rest, _, env => do
    let (v, env1) ← evalV fuel a env
    evalSeq fuel rest v env1

/-- The loop of `builtin::while_loop`: evaluate the condition; while
truthy, evaluate the middle expressions and then the last one (whose value
becomes the accumulator); return the accumulator when the condition turns
falsy. -/
def whileF :
    Nat → Value → List Value → Value → Value → Env → Except Err (Value × Env)
  | 0, _, _, _, _, _ => .error .outOfFuel
  | fuel + 1, cond, middle, lastE, acc, env => do
    let (cv, env1) ← evalV fuel cond env
    if asBool cv then do
      let (_, env2) ← evalSeq fuel middle .unit env1
      let (a, env3) ← evalV fuel lastE env2
      whileF fuel cond middle lastE a env3
    else .ok (acc, env1)

/-- The loop of `builtin::for_loop`: for each element, `as_atom` the name
expression (`BAD_CAST` if it is not an atom), bind it *in the current
environment*, evaluate the middle expressions and the last one. -/
def forF :
    Nat → Value → List Value → Value → List Value → Value → Env →
    Except Err (Value × Env)
  | _, _, _, _, [], acc, env => .ok (acc, env)
  | 0, _, _, _, _ :: _, _, _ => .error .outOfFuel
  | fuel + 1, a0, middle, lastE, x :: rest, _, env =>
    match a0 with
    | .atom nm => do
      let (_, env2) ← evalSeq fuel middle .unit (env.set nm x)
      let (a, env3) ← evalV fuel lastE env2
      forF fuel a0 middle lastE rest a env3
    | _ => .error .badCast

/-- The loop of `builtin::map_list`: apply the function to each element. -/
def mapF : Nat → Value → List Value → Env → Except Err (List Value × Env)
  | _, _, [], env => .ok ([], env)
  | 0, _, _ :: _, _ => .error .outOfFuel
  | fuel + 1, f0, x :: rest, env => do
    let (r, env1) ← applyV fuel f0 [x] env
    let (rs, env2) ← mapF fuel f0 rest env1
    .ok (r :: rs, env2)

/-- The loop of `builtin::filter_list`: keep the elements on which the
function is truthy. -/
def filterF : Nat → Value → List Value → Env → Except Err (List Value × Env)
  | _, _, [], env => .ok ([], env)
  | 0, _, _ :: _, _ => .error .outOfFuel
  | fuel + 1, f0, x :: rest, env => do
    let (r, env1) ← applyV fuel f0 [x] env
    let (rs, env2) ← filterF fuel f0 rest env1
    .ok (if asBool r then x :: rs else rs, env2)

/-- The loop of `builtin::reduce_list`. -/
def reduceF : Nat → Value → Value → List Value → Env → Except Err (Value × Env)
  | _, _, acc, [], env => .ok (acc, env)
  | 0, _, _, _ :: _, _ => .error .outOfFuel
  | fuel + 1, f0, acc, x :: rest, env => do
    let (r, env1) ← applyV fuel f0 [acc, x] env
    reduceF fuel f0 r rest env1

/-- The builtin dispatcher: the body of each function of `namespace
builtin`.  Special forms receive `args` unevaluated; all others first run
`eval_args` and then their pure core.  The I/O builtins (`exit`, `print`,
`input`, `random`, `include`, `read-file`, `write-file`) perform host
effects and are outside the pure model; no claim depends on them. -/
def evalBuiltin : Nat → BuiltinId → List Value → Env → Except Err (Value × Env)
  | 0, _, _, _ => .error .outOfFuel
  | fuel + 1, b, args, env =>
    match b with
    -- special forms
    | .lambdaFn =>
      match args with
      | ps :: body :: _ =>
        match ps with
        | .listV params => .ok (mkLambda params body env, env)
        | _ => .error .invalidLambda
      | _ => .error .tooFewArgs
    | .ifThenElse =>
      match args with
      | [c, t, e] => do
        let (cv, env1) ← evalV fuel c env
        if asBool cv then evalV fuel t env1 else evalV fuel e env1
      | _ => .error (arityErr args.length 3)
    | .defineFn =>
      match args with
      | [nameE, body] => do
        let (r, env1) ← evalV fuel body env
        .ok (r, env1.set (displayV nameE) r)
      | _ => .error (arityErr args.length 2)
    | .defun =>
      match args with
      | [nameE, ps, body] =>
        match ps with
        | .listV params =>
          let fv := mkLambda params body env
          .ok (fv, env.set (displayV nameE) fv)
        | _ => .error .invalidLambda
      | _ => .error (arityErr args.length 3)
    | .whileLoop =>
      match args with
      | [] => .error .internalError
      | cond :: rest =>
        whileF fuel cond rest.dropLast (args.getLastD .unit) .unit env
    | .forLoop =>
      match args with
      | a0 :: a1 :: _ => do
        let (lv, env1) ← evalV fuel a1 env
        let items ← asListV lv
        forF fuel a0 ((args.drop 1).dropLast) (args.getLastD .unit) items .unit
          env1
      | _ => .error .internalError
    | .doBlock => evalSeq fuel args .unit env
    | .scope => do
      let (acc, _) ← evalSeq fuel args .unit env
      .ok (acc, env)
    | .quoteFn => .ok (.listV args, env)
    -- meta operations
    | .evalFn => do
      let (vs, env1) ← evalArgsN fuel args env
      match vs with
      | [v] => evalV fuel v env1
      | _ => .error (arityErr vs.length 1)
    | .typeFn => do
      let (vs, env1) ← evalArgsN fuel args env
      let r ← typeCore vs
      .ok (r, env1)
    | .parseFn => do
      let (vs, env1) ← evalArgsN fuel args env
      let r ← parseCore fuel vs
      .ok (r, env1)
    -- comparison operations
    | .eq => do
      let (vs, env1) ← evalArgsN fuel args env
      let r ← eqCore vs
      .ok (r, env1)
    | .neq => do
      let (vs, env1) ← evalArgsN fuel args env
      let r ← neqCore vs
      .ok (r, env1)
    | .greater => do
      let (vs, env1) ← evalArgsN fuel args env
      let r ← greaterCore vs
      .ok (r, env1)
    | .less => do
      let (vs, env1) ← evalArgsN fuel args env
      let r ← lessCore vs
      .ok (r, env1)
    | .greaterEq => do
      let (vs, env1) ← evalArgsN fuel args env
      let r ← greaterEqCore vs
      .ok (r, env1)
    | .lessEq => do
      let (vs, env1) ← evalArgsN fuel args env
      let r ← lessEqCore vs
      .ok (r, env1)
    -- arithmetic operations
    | .sum => do
      let (vs, env1) ← evalArgsN fuel args env
      let r ← sumCore vs
      .ok (r, env1)
    | .subtract => do
      let (vs, env1) ← evalArgsN fuel args env
      let r ← subtractCore vs
      .ok (r, env1)
    | .product => do
      let (vs, env1) ← evalArgsN fuel args env
      let r ← productCore vs
      .ok (r, env1)
    | .divide => do
      let (vs, env1) ← evalArgsN fuel args env
      let r ← divideCore vs
      .ok (r, env1)
    | .remainderFn => do
      let (vs, env1) ← evalArgsN fuel args env
      let r ← remainderCore vs
      .ok (r, env1)
    -- list operations
    | .listFn => do
      let (vs, env1) ← evalArgsN fuel args env
      .ok (.listV vs, env1)
    | .insert => do
      let (vs, env1) ← evalArgsN fuel args env
      let r ← insertCore vs
      .ok (r, env1)
    | .indexFn => do
      let (vs, env1) ← evalArgsN fuel args env
      let r ← indexCore vs
      .ok (r, env1)
    | .removeFn => do
      let (vs, env1) ← evalArgsN fuel args env
      let r ← removeCore vs
      .ok (r, env1)
    | .len => do
      let (vs, env1) ← evalArgsN fuel args env
      let r ← lenCore vs
      .ok (r, env1)
    | .push => do
      let (vs, env1) ← evalArgsN fuel args env
      let r ← pushCore vs
      .ok (r, env1)
    | .pop => do
      let (vs, env1) ← evalArgsN fuel args env
      let r ← popCore vs
      .ok (r, env1)
    | .headFn => do
      let (vs, env1) ← evalArgsN fuel args env
      let r ← headCore vs
      .ok (r, env1)
    | .tailFn => do
      let (vs, env1) ← evalArgsN fuel args env
      let r ← tailCore vs
      .ok (r, env1)
    | .range => do
      let (vs, env1) ← evalArgsN fuel args env
      let r ← rangeCore fuel vs
      .ok (r, env1)
    -- functional operations
    | .mapList => do
      let (vs, env1) ← evalArgsN fuel args env
      match vs with
      | f0 :: l0 :: _ => do
        let items ← asListV l0
        let (rs, env2) ← mapF fuel f0 items env1
        .ok (.listV rs, env2)
      | _ => .error .internalError
    | .filterList => do
      let (vs, env1) ← evalArgsN fuel args env
      match vs with
      | f0 :: l0 :: _ => do
        let items ← asListV l0
        let (rs, env2) ← filterF fuel f0 items env1
        .ok (.listV rs, env2)
      | _ => .error .internalError
    | .reduceList => do
      let (vs, env1) ← evalArgsN fuel args env
      match vs with
      | f0 :: init0 :: l0 :: _ => do
        let items ← asListV l0
        reduceF fuel f0 init0 items env1
      | _ => .error .internalError
    -- string operations
    | .debugFn => do
      let (vs, env1) ← evalArgsN fuel args env
      let r ← debugCore vs
      .ok (r, env1)
    | .replaceFn => do
      let (vs, env1) ← evalArgsN fuel args env
      let r ← replaceCore fuel vs
      .ok (r, env1)
    | .displayFn => do
      let (vs, env1) ← evalArgsN fuel args env
      let r ← displayCore vs
      .ok (r, env1)
    -- casting operations
    | .castToInt => do
      let (vs, env1) ← evalArgsN fuel args env
      let r ← castIntCore vs
      .ok (r, env1)
    | .castToFloat => do
      let (vs, env1) ← evalArgsN fuel args env
      let r ← castFloatCore vs
      .ok (r, env1)
    -- host I/O (outside the pure model)
    | .exitFn | .printFn | .inputFn | .randomFn | .includeFn | .readFile
    | .writeFile => do
      let (_, _) ← evalArgsN fuel args env
      .error .unmodelledEffect
end

/-- The evaluation loop of `run`: evaluate every expression, returning the
last one's value.  (`run` on an empty parse indexes `parsed[size_t(-1)]`,
undefined behaviour; `runL` never calls this with `[]`.) -/
def runEvalList : Nat → List Value → Env → Except Err (Value × Env)
  | _, [], _ => .error .internalError
  | fuel, [v], env => evalV fuel v env
  | fuel, v :: rest, env => do
    let (_, env1) ← evalV fuel v env
    runEvalList fuel rest env1

/-- `run(code, env)`: parse, evaluate each expression in turn, return the
last result. -/
def runL (fuel : Nat) (code : List Char) (env : Env) : Except Err (Value × Env) := do
  let vs ← parseProgramL fuel code
  match vs with
  | [] => .error .internalError
  | _ => runEvalList fuel vs env

/-- `run` on a Lean string literal. -/
def runStr (fuel : Nat) (code : String) (env : Env) : Except Err (Value × Env) :=
  runL fuel code.toList env

/-- Project the resulting value of a run, discarding the final
environment. -/
def resultOf (r : Except Err (Value × Env)) : Option Value :=
  match r with
  | .ok (v, _) => some v
  | .error _ => none

/-! ## Theorems -/

/-- Reduction of `Except` bind on a success. -/
theorem bindOkE {α β : Type} (a : α) (f : α → Except Err β) :
    (Except.ok a : Except Err α) >>= f = f a := rfl

/-- Reduction of `Except` bind on an error. -/
theorem bindErrE {α β : Type} (e : Err) (f : α → Except Err β) :
    (Except.error e : Except Err α) >>= f = Except.error e := rfl

/-- Reduction of `pure` in the `Except` monad. -/
theorem pureE {α : Type} (a : α) : (pure a : Except Err α) = Except.ok a := rfl

/-- C1: Unit absorption by `operator+`.  The *right* operand Unit absorbs
for every left operand, but a *left* Unit absorbs only non-numeric right
operands: for a numeric right operand the mixed-number guard fires first
and `Unit + Int`/`Unit + Float` raise `INVALID_BIN_OP`, contradicting the
claim (and the source's own `case UNIT: return *this;` arm, which that
guard makes unreachable for numbers, as well as the comment "Unit types
consume all arithmetic operations"). -/
theorem add_unit_absorption :
    valueAdd .unit (.int 1) = .error .invalidBinOp ∧
    valueAdd .unit (.float 1) = .error .invalidBinOp ∧
    valueAdd .unit (.str "s") = .ok .unit ∧
    (∀ a : Value, valueAdd a .unit = .ok .unit) :=
  ⟨rfl, rfl, rfl, fun _ => rfl⟩

/-- C5: Quote stripping: evaluating a Quote-tagged value returns the
payload itself, with the environment untouched (one layer removed, no
lookup performed). -/
theorem eval_quote_strips (fuel : Nat) (e : Value) (env : Env) :
    evalV (fuel + 1) (.quoted e) env = .ok (e, env) := rfl

/-- C3 (counterexample): `16777217 = 2^24 + 1` is exactly representable in
an IEEE-754 double, yet `Int(16777217) == Float(16777217.0)` is *false*,
because `Value::cast_to_float` converts the int through single precision
(`float(stack_data.i)`), which rounds `2^24 + 1` to `2^24`. -/
theorem int_float_eq_double_counterexample :
    valueEq (.int 16777217) (.float (16777217 : Rat)) = false ∧
    floatOfInt 16777217 = 16777216 := by
  exact ⟨by decide, by decide⟩

/-- C3 (amended): equality under numeric promotion holds for every integer
that survives the single-precision cast unchanged — in particular for every
`n` with `|n| ≤ 2^24`: there `float(n)` is exact and
`Int(n) == Float(n.0)` is true. -/
theorem int_float_eq_single_precision :
    ∀ n : Int, n.natAbs ≤ 2 ^ 24 →
      floatOfInt n = n ∧ valueEq (.int n) (.float (n : Rat)) = true := by
  have haux : ∀ m : Nat, m ≤ 2 ^ 24 → floatOfIntAux m = m := by
    intro m hm
    unfold floatOfIntAux
    rw [if_pos hm]
  intro n h
  have hf : floatOfInt n = n := by
    unfold floatOfInt
    by_cases hn : 0 ≤ n
    · rw [if_pos hn, haux n.toNat (by omega)]
      omega
    · rw [if_neg hn, haux (-n).toNat (by omega)]
      omega
  refine ⟨hf, ?_⟩
  show decide ((((floatOfInt n : Int) : Rat)) = (n : Rat)) = true
  rw [hf]
  simp

/-- Witness for C3's amended theorem at `n = 3`. -/
theorem int_float_eq_single_precision_witness :
    floatOfInt 3 = 3 ∧ valueEq (.int 3) (.float (3 : Rat)) = true :=
  int_float_eq_single_precision 3 (by decide)

/-- C2: Reserved built-in names are not shadowable.  For every environment,
every name in the reserved table and every value, after `env.set(name, v)`
a `get` of that name still returns the reserved value (the table is
consulted before user definitions), while the user binding *is* stored in
the local definitions (it is just never observed by `get`).  The closed
conjunct runs `(define + 0) +` end to end: the final `+` still evaluates to
the reserved builtin. -/
theorem reserved_names_not_shadowable :
    (∀ (env : Env) (name : String) (v userv : Value),
      reservedLookup name = some v →
      (env.set name userv).get name = .ok v ∧
      lookupFrames (env.set name userv).frames name = some userv) ∧
    resultOf (runStr 64 "(define + 0) +" Env.empty) =
      some (.builtin "+" .sum) := by
  refine ⟨?_, rfl⟩
  intro env name v userv h
  constructor
  · unfold Env.get
    rw [h]
  · obtain ⟨frames⟩ := env
    cases frames <;>
      simp [Env.set, lookupFrames, frameSet, frameLookup]

/-- Witness for C2 at the spec's own example: `(define + 0)` stores the
binding, but `get "+"` still returns the builtin. -/
theorem reserved_names_not_shadowable_witness :
    (Env.empty.set "+" (.int 0)).get "+" = .ok (.builtin "+" .sum) ∧
    lookupFrames (Env.empty.set "+" (.int 0)).frames "+" = some (.int 0) :=
  reserved_names_not_shadowable.1 Env.empty "+" (.builtin "+" .sum) (.int 0) rfl

/-- C9: `builtin::index` returns an element only for `0 ≤ i < len`; every
negative index (the signed int is converted to `size_t` by the comparison
`i >= list.size()`, so it wraps far above any real vector length), every
index at or above the length, and every index into an empty list raise
`INDEX_OUT_OF_RANGE` instead of touching the storage. -/
theorem index_bounds :
    (∀ (l : List Value) (i : Int), 0 ≤ i → i < l.length →
      indexCore [.listV l, .int i] = .ok (l.getD i.toNat .unit)) ∧
    (∀ (l : List Value) (i : Int), -(2 ^ 31) ≤ i → i < 0 →
      l.length < 2 ^ 63 →
      indexCore [.listV l, .int i] = .error .indexOutOfRange) ∧
    (∀ (l : List Value) (i : Int), (l.length : Int) ≤ i →
      indexCore [.listV l, .int i] = .error .indexOutOfRange) := by
  have hpow : ((2 : Int) ^ 64) = 18446744073709551616 := by norm_num
  have hpow31 : ((2 : Int) ^ 31) = 2147483648 := by norm_num
  have hpow63 : ((2 : Nat) ^ 63) = 9223372036854775808 := by norm_num
  refine ⟨?_, ?_, ?_⟩
  · intro l i h0 hlen
    have hsz : sizeTof i = i.toNat := by simp [sizeTof, h0]
    have hne : l.isEmpty = false := by
      cases l
      · simp at hlen
        omega
      · rfl
    simp only [indexCore, asListV, asIntZ, bindOkE, hsz, hne, Bool.false_or]
    rw [if_neg (by simp only [decide_eq_true_eq]; omega)]
  · intro l i hlo hneg hlen
    have hsz : l.length ≤ sizeTof i := by
      have h1 : sizeTof i = (2 ^ 64 + i).toNat := by
        simp only [sizeTof]
        rw [if_neg (by omega)]
      rw [h1, hpow]
      rw [hpow31] at hlo
      rw [hpow63] at hlen
      omega
    simp only [indexCore, asListV, asIntZ, bindOkE]
    rw [if_pos (by simp only [Bool.or_eq_true, decide_eq_true_eq]; right; omega)]
  · intro l i hge
    have h0 : 0 ≤ i := le_trans (by positivity) hge
    have hsz : l.length ≤ sizeTof i := by
      simp only [sizeTof, if_pos h0]
      omega
    simp only [indexCore, asListV, asIntZ, bindOkE]
    rw [if_pos (by simp only [Bool.or_eq_true, decide_eq_true_eq]; right; omega)]

/-- Witness for C9: a valid index returns the element; index `-1` and an
index into the empty list raise `INDEX_OUT_OF_RANGE`. -/
theorem index_bounds_witness :
    indexCore [.listV [.int 10, .int 20, .int 30], .int 1] = .ok (.int 20) ∧
    indexCore [.listV [.int 10], .int (-1)] = .error .indexOutOfRange ∧
    indexCore [.listV [], .int 0] = .error .indexOutOfRange :=
  ⟨(index_bounds.1 [.int 10, .int 20, .int 30] 1 (by decide) (by decide)).trans
      rfl,
    index_bounds.2.1 [.int 10] (-1) (by decide) (by decide) (by decide),
    index_bounds.2.2 [] 0 (by decide)⟩

/-- The accumulation loop of `builtin::sum`/`builtin::product` is exactly
the monadic left fold of the binary operator. -/
theorem foldAcc_eq_foldlM (op : Value → Value → Except Err Value) :
    ∀ (l : List Value) (acc : Value), foldAcc op acc l = List.foldlM op acc l := by
  intro l
  induction l with
  | nil => intro acc; rfl
  | cons x rest ih =>
    intro acc
    simp only [foldAcc, List.foldlM_cons]
    cases op acc x with
    | ok v => simp [ih]
    | error e => rfl

/-- C10: the builtins `+` and `*` evaluate their arguments, raise
`TOO_FEW_ARGS` on fewer than two evaluated arguments, and otherwise left-
fold binary `operator+` (resp. `operator*`) over the arguments in order.
The closed conjuncts check the whole pipeline: arguments are evaluated
(`a` is looked up), the fold is left-to-right (string concatenation shows
the order), and one argument errors. -/
theorem arith_fold_contract :
    (∀ vs : List Value, vs.length < 2 →
      sumCore vs = .error .tooFewArgs ∧ productCore vs = .error .tooFewArgs) ∧
    (∀ (v : Value) (rest : List Value), 1 ≤ rest.length →
      sumCore (v :: rest) = List.foldlM valueAdd v rest ∧
      productCore (v :: rest) = List.foldlM valueMul v rest) ∧
    resultOf (runStr 64 "(define a 1) (+ a 2 3)" Env.empty) = some (.int 6) ∧
    resultOf (runStr 64 "(* 2 3 4)" Env.empty) = some (.int 24) ∧
    sumCore [.str "a", .str "b", .str "c"] = .ok (.str "abc") ∧
    runStr 64 "(+ 1)" Env.empty = .error .tooFewArgs := by
  refine ⟨?_, ?_, rfl, rfl, rfl, rfl⟩
  · intro vs h
    constructor <;> · simp only [sumCore, productCore]; rw [if_pos h]
  · intro v rest h
    have hlen : ¬(v :: rest).length < 2 := by simp; omega
    constructor
    · simp only [sumCore]
      rw [if_neg hlen, foldAcc_eq_foldlM]
    · simp only [productCore]
      rw [if_neg hlen, foldAcc_eq_foldlM]

/-- Witness for C10: one argument is too few; two sum to their fold. -/
theorem arith_fold_contract_witness :
    sumCore [.int 5] = .error .tooFewArgs ∧
    sumCore [.int 1, .int 2] = .ok (.int 3) :=
  ⟨(arith_fold_contract.1 [.int 5] (by decide)).1,
    ((arith_fold_contract.2.1 (.int 1) [.int 2] (by decide)).1).trans rfl⟩

/-- The range loop on two Ints produces `[lo, lo+1, …, hi-1]` whenever the
fuel exceeds the number of iterations. -/
theorem rangeLoop_int :
    ∀ (fuel : Nat) (lo hi : Int), (hi - lo).toNat < fuel →
      rangeLoop fuel (.int lo) (.int hi) =
        .ok ((List.range (hi - lo).toNat).map fun k : Nat => .int (lo + (k : Int))) := by
  intro fuel
  induction fuel with
  | zero => intro lo hi h; omega
  | succ f ih =>
    intro lo hi h
    have hunf : rangeLoop (f + 1) (Value.int lo) (Value.int hi) =
        (if decide (lo < hi) then
          (do
            let rest ← rangeLoop f (Value.int (lo + 1)) (Value.int hi)
            Except.ok (Value.int lo :: rest))
        else Except.ok []) := rfl
    by_cases hlt : lo < hi
    · rw [hunf, decide_eq_true hlt, if_pos rfl, ih (lo + 1) hi (by omega),
        bindOkE]
      have ht : (hi - lo).toNat = (hi - (lo + 1)).toNat + 1 := by omega
      rw [ht, List.range_succ_eq_map]
      simp only [List.map_cons, List.map_map, Function.comp, Nat.cast_zero,
        Nat.cast_add, Nat.cast_one, add_zero]
      congr 1
      congr 1
      apply List.map_congr_left
      intro k _
      simp only [Function.comp_apply, Nat.succ_eq_add_one, Nat.cast_add,
        Nat.cast_one]
      congr 1
      ring
    · rw [hunf, decide_eq_false hlt, if_neg (by simp)]
      have ht : (hi - lo).toNat = 0 := by omega
      rw [ht]
      rfl

/-- C8: `builtin::range` on two Int arguments returns the List
`[lo, lo+1, …, hi-1]` (given fuel exceeding the iteration count), and the
empty List whenever `lo ≥ hi`.  The closed conjunct runs `(range 1 5)` end
to end. -/
theorem range_contract :
    (∀ (fuel : Nat) (lo hi : Int) (rest : List Value),
      (hi - lo).toNat < fuel →
      rangeCore fuel (Value.int lo :: Value.int hi :: rest) =
        .ok (.listV ((List.range (hi - lo).toNat).map
          fun k : Nat => .int (lo + (k : Int))))) ∧
    (∀ (fuel : Nat) (lo hi : Int) (rest : List Value), hi ≤ lo →
      rangeCore fuel (Value.int lo :: Value.int hi :: rest) =
        .ok (.listV [])) ∧
    resultOf (runStr 64 "(range 1 5)" Env.empty) =
      some (.listV [.int 1, .int 2, .int 3, .int 4]) := by
  have hcore : ∀ (fuel : Nat) (lo hi : Int) (rest : List Value),
      rangeCore fuel (Value.int lo :: Value.int hi :: rest) =
        (if (!decide (lo < hi)) then Except.ok (Value.listV [])
        else do
          let l ← rangeLoop fuel (.int lo) (.int hi)
          Except.ok (.listV l)) := by
    intro fuel lo hi rest
    rfl
  refine ⟨?_, ?_, rfl⟩
  · intro fuel lo hi rest h
    rw [hcore]
    by_cases hlt : lo < hi
    · rw [decide_eq_true hlt, if_neg (by simp),
        rangeLoop_int fuel lo hi h, bindOkE]
    · rw [decide_eq_false hlt, if_pos (by simp)]
      have ht : (hi - lo).toNat = 0 := by omega
      rw [ht]
      rfl
  · intro fuel lo hi rest h
    rw [hcore, decide_eq_false (by omega : ¬lo < hi), if_pos (by simp)]

/-- Witness for C8 at `lo = 1`, `hi = 5` and at `lo = 5`, `hi = 1`. -/
theorem range_contract_witness :
    rangeCore 10 [Value.int 1, Value.int 5] =
      .ok (.listV [.int 1, .int 2, .int 3, .int 4]) ∧
    rangeCore 10 [Value.int 5, Value.int 1] = .ok (.listV []) :=
  ⟨(range_contract.1 10 1 5 [] (by decide)).trans rfl,
    range_contract.2.1 10 5 1 [] (by decide)⟩

/-- On an all-atom parameter list of matching length, the binding loop of
`Value::apply` succeeds and produces exactly the sequential overlay of the
arguments onto the captured scope. -/
theorem bindParams_atoms :
    ∀ (names : List String) (args : List Value) (cap : Frame),
      names.length = args.length →
      bindParams (names.map Value.atom) args cap =
        .ok (bindList cap names args) := by
  intro names
  induction names with
  | nil =>
    intro args cap h
    cases args
    · rfl
    · simp at h
  | cons n ns ih =>
    intro args cap h
    cases args with
    | nil => simp at h
    | cons a as =>
      simp only [List.map_cons, bindParams, bindList]
      exact ih as (frameSet cap n a) (by simpa using h)

/-- If any parameter is not an Atom, the binding loop of `Value::apply`
raises `INVALID_LAMBDA`. -/
theorem bindParams_nonatom :
    ∀ (params args : List Value) (cap : Frame),
      params.length = args.length →
      (∃ p ∈ params, ∀ s, p ≠ Value.atom s) →
      bindParams params args cap = .error .invalidLambda := by
  intro params
  induction params with
  | nil =>
    intro args cap _ hex
    simp at hex
  | cons p ps ih =>
    intro args cap h hex
    cases args with
    | nil => simp at h
    | cons a as =>
      cases p with
      | atom s =>
        have htail : ∃ q ∈ ps, ∀ t, q ≠ Value.atom t := by
          rcases hex with ⟨q, hq, hne⟩
          rcases List.mem_cons.mp hq with rfl | hm
          · exact absurd rfl (hne s)
          · exact ⟨q, hm, hne⟩
        simp only [bindParams]
        exact ih as (frameSet cap s a) (by simpa using h) htail
      | unit => rfl
      | int i => rfl
      | float f => rfl
      | str s => rfl
      | quoted v => rfl
      | listV l => rfl
      | lambdaV ps2 b2 c2 => rfl
      | builtin n b => rfl

/-- C6: the Lambda application protocol of `Value::apply`: more arguments
than parameters raise `TOO_MANY_ARGS`; fewer raise `TOO_FEW_ARGS`; on
matching counts a non-Atom parameter raises `INVALID_LAMBDA`; otherwise
the body is evaluated in the captured scope extended with the parameter
bindings and with the call-site environment as parent, and that result is
returned (the call-site environment itself is handed back unchanged). -/
theorem lambda_apply_protocol :
    ∀ (fuel : Nat) (params args : List Value) (body : Value) (cap : Frame)
      (env : Env) (names : List String),
      (params.length < args.length →
        applyV (fuel + 1) (.lambdaV params body cap) args env =
          .error .tooManyArgs) ∧
      (args.length < params.length →
        applyV (fuel + 1) (.lambdaV params body cap) args env =
          .error .tooFewArgs) ∧
      (params.length = args.length →
        (∃ p ∈ params, ∀ s, p ≠ Value.atom s) →
        applyV (fuel + 1) (.lambdaV params body cap) args env =
          .error .invalidLambda) ∧
      (names.length = args.length →
        applyV (fuel + 1) (.lambdaV (names.map Value.atom) body cap) args env =
          (evalV fuel body ⟨bindList cap names args :: env.frames⟩).map
            (fun p => (p.1, env))) := by
  intro fuel params args body cap env names
  refine ⟨?_, ?_, ?_, ?_⟩
  · intro h
    simp only [applyV]
    rw [if_pos (by omega), if_pos (by omega)]
  · intro h
    simp only [applyV]
    rw [if_pos (by omega), if_neg (by omega)]
  · intro h hex
    simp only [applyV]
    rw [if_neg (by omega), bindParams_nonatom params args cap h hex]
    rfl
  · intro h
    simp only [applyV]
    rw [if_neg (by simp only [List.length_map]; omega),
      bindParams_atoms names args cap h, bindOkE]
    cases hev : evalV fuel body ⟨bindList cap names args :: env.frames⟩ with
    | ok p =>
      cases p
      simp [Except.map]
    | error e => simp [Except.map]

/-- Witness for C6: the identity lambda applied to 42 returns 42; an extra
argument raises `TOO_MANY_ARGS`; a non-Atom parameter raises
`INVALID_LAMBDA`. -/
theorem lambda_apply_protocol_witness :
    applyV 5 (.lambdaV [Value.atom "n"] (.atom "n") []) [.int 42] Env.empty =
      .ok (.int 42, Env.empty) ∧
    applyV 5 (.lambdaV [Value.atom "n"] (.atom "n") [])
      [.int 1, .int 2] Env.empty = .error .tooManyArgs ∧
    applyV 5 (.lambdaV [Value.int 7] (.atom "n") []) [.int 1] Env.empty =
      .error .invalidLambda :=
  ⟨((lambda_apply_protocol 4 [Value.atom "n"] [Value.int 42] (.atom "n") []
      Env.empty ["n"]).2.2.2 rfl).trans rfl,
    (lambda_apply_protocol 4 [Value.atom "n"] [Value.int 1, Value.int 2]
      (.atom "n") [] Env.empty []).1 (by decide),
    (lambda_apply_protocol 4 [Value.int 7] [Value.int 1] (.atom "n") []
      Env.empty []).2.2.1 rfl
      ⟨Value.int 7, List.mem_singleton.mpr rfl, fun s h => by cases h⟩⟩

/-- C7: `scope` evaluates its expressions in order in a copy of the current
environment and returns the last result; the caller's environment comes
back exactly as it was, so definitions inside `scope` never leak.  The two
closed conjuncts run the spec's own scenario: the inner `x` sees 20, the
outer `x` stays 10. -/
theorem scope_no_leak :
    (∀ (fuel : Nat) (args : List Value) (env : Env) (v : Value) (env' : Env),
      evalBuiltin (fuel + 1) .scope args env = .ok (v, env') → env' = env) ∧
    (∀ (fuel : Nat) (args : List Value) (env : Env),
      evalBuiltin (fuel + 1) .scope args env =
        (evalSeq fuel args .unit env).map (fun p => (p.1, env))) ∧
    resultOf (runStr 64 "(define x 10) (scope (define x 20) x) x" Env.empty) =
      some (.int 10) ∧
    resultOf (runStr 64 "(define x 10) (scope (define x 20) x)" Env.empty) =
      some (.int 20) := by
  have heq : ∀ (fuel : Nat) (args : List Value) (env : Env),
      evalBuiltin (fuel + 1) .scope args env =
        (evalSeq fuel args .unit env).map (fun p => (p.1, env)) := by
    intro fuel args env
    simp only [evalBuiltin]
    cases evalSeq fuel args .unit env with
    | ok p =>
      cases p
      simp [Except.map, bindOkE]
    | error e => simp [Except.map, bindErrE]
  refine ⟨?_, heq, rfl, rfl⟩
  intro fuel args env v env' h
  rw [heq] at h
  cases hev : evalSeq fuel args .unit env with
  | ok p =>
    rw [hev] at h
    cases p
    simp only [Except.map] at h
    cases h
    rfl
  | error e =>
    rw [hev] at h
    simp [Except.map] at h

/-- Witness for C7: a `scope` containing a `define` returns the defined
value while the outer (empty) environment is preserved. -/
theorem scope_no_leak_witness :
    evalBuiltin 8 BuiltinId.scope
      [Value.listV [Value.atom "define", Value.atom "y", Value.int 5]]
      Env.empty = .ok (Value.int 5, Env.empty) ∧ Env.empty = Env.empty :=
  ⟨rfl, scope_no_leak.1 7
    [Value.listV [Value.atom "define", Value.atom "y", Value.int 5]]
    Env.empty (Value.int 5) Env.empty rfl⟩

/-- Parsing the single expression `1` at the start of `"1 ;<comment>"`:
the cursor stops on the `;`, the buffer is untouched. -/
theorem parseOne_first (f : Nat) (c : List Char) :
    parseOne (f + 1) ('1' :: ' ' :: ';' :: c) 0 =
      .ok (.int 1, '1' :: ' ' :: ';' :: c, 2) := by
  have h0 : skipWs ('1' :: ' ' :: ';' :: c) 0 = 0 := by
    simp [skipWs, isSpaceC]
  have h1 : skipWs ('1' :: ' ' :: ';' :: c) 1 = 2 := by
    simp [skipWs, isSpaceC, List.takeWhile]
  have h2 : scanNum ('1' :: ' ' :: ';' :: c) 0 = 1 := by
    simp [scanNum, isDigitC, List.takeWhile]
  simp only [parseOne, h0, h1, h2]
  simp [charAt, isDigitC, atoiZ, digitsToNat]
  simp [h2, h1]

/-- Parsing at the `;` of `"1 ;<comment>"` when the comment contains no
newline: the comment (which runs to end of input) is erased from the
buffer, after which the `substr(ptr, length-ptr-1)` emptiness check
triggers and the parser returns a Unit *value*. -/
theorem parseOne_comment (f : Nat) (c : List Char) (h : ∀ ch ∈ c, ch ≠ '\n') :
    parseOne (f + 1) ('1' :: ' ' :: ';' :: c) 2 = .ok (.unit, ['1', ' '], 2) := by
  have hs2 : skipWs ('1' :: ' ' :: ';' :: c) 2 = 2 := by
    simp [skipWs, isSpaceC, List.takeWhile]
  have htw : (';' :: c).takeWhile (fun ch => decide (ch ≠ '\n')) = ';' :: c := by
    rw [List.takeWhile_eq_self_iff]
    intro x hx
    rcases List.mem_cons.mp hx with rfl | hm
    · decide
    · simpa using h x hm
  have heol : findEol ('1' :: ' ' :: ';' :: c) 2 = 3 + c.length := by
    simp only [findEol, List.drop_succ_cons, List.drop_zero]
    rw [htw]
    simp
    omega
  have herase :
      eraseRange ('1' :: ' ' :: ';' :: c) 2 (3 + c.length - 2) = ['1', ' '] := by
    have hidx : 2 + (3 + c.length - 2) = 3 + c.length := by omega
    simp only [eraseRange, hidx]
    rw [List.drop_eq_nil_of_le (by simp only [List.length_cons]; omega)]
    simp
  have hc2 : charAt ('1' :: ' ' :: ';' :: c) 2 = ';' := by simp [charAt]
  have hsw : skipWs ['1', ' '] 2 = 2 := by simp [skipWs]
  simp only [parseOne, hs2, heol, herase, hc2, hsw]
  simp

/-- C4 (counterexample): line comments can leave a token.  The program
`1 ;c` (comment after the last expression, running to end of input) parses
to the two-element sequence `[1, Unit]`, while the same program with the
comment deleted, `1 `, parses to `[1]` — the sequences differ, refuting
the claim at this input. -/
theorem comment_leaves_token_counterexample :
    parseProgramL 99 "1 ;c".toList = .ok [.int 1, .unit] ∧
    parseProgramL 99 "1 ".toList = .ok [.int 1] ∧
    (Except.ok [Value.int 1, Value.unit] : Except Err (List Value)) ≠
      .ok [.int 1] :=
  ⟨rfl, rfl, by simp⟩

/-- C4 (amended): a line comment erases itself from the buffer, but a
comment following the last expression does leave one token: for *every*
newline-free comment body, parsing `1 ;<body>` yields the sequence of the
comment-free program `1 ` with one extra Unit value appended (the
expression parser returns Unit when at most one character of text remains
after comment removal, and the whole-program loop keeps that value). -/
theorem trailing_comment_appends_unit :
    (∀ c : List Char, (∀ ch ∈ c, ch ≠ '\n') →
      parseProgramL 99 ('1' :: ' ' :: ';' :: c) = .ok [.int 1, .unit]) ∧
    parseProgramL 99 "1 ".toList = .ok [.int 1] := by
  refine ⟨?_, rfl⟩
  intro c h
  have e99 : (99 : Nat) = 98 + 1 := rfl
  have e98 : (98 : Nat) = 97 + 1 := rfl
  have e97 : (97 : Nat) = 96 + 1 := rfl
  simp only [parseProgramL]
  rw [e99, parseAll]
  rw [if_pos ⟨by simp, by simp⟩]
  rw [e98, parseOne_first 97 c, bindOkE]
  simp only [List.nil_append]
  rw [parseAll]
  rw [if_pos ⟨by simp, by simp⟩]
  rw [e97, parseOne_comment 96 c h, bindOkE]
  simp only [List.cons_append, List.nil_append]
  rw [parseAll]
  rw [if_neg (by simp)]
  rfl

/-- Witness for C4's amended theorem at the comment body `hello`. -/
theorem trailing_comment_appends_unit_witness :
    parseProgramL 99 ('1' :: ' ' :: ';' :: "hello".toList) =
      .ok [.int 1, .unit] :=
  trailing_comment_appends_unit.1 "hello".toList (by decide)

end Wisp
